import Mathlib

/-!
Verification of the chunk-mutation pipeline of a GFS-style file store.

The development shallowly embeds the chunkserver (download buffer, per-chunk
version bookkeeping, the `doMutation` drain loop and the RPC handlers), the
client driver's append loop and offset checks, and the master's server
selection.  Machine integers of the source are modelled as `Nat` (all the
quantities involved — lengths, offsets, versions — are non-negative in every
reachable state of the source); byte buffers as `List Nat`; the Go maps as
association lists; disk success as an explicit oracle.
-/

namespace GoGFS

/-- Modelled from the spec: `MaxChunkSize` default 64 MiB.  The `gfs`
constants file is not among the sources; only its uses are. -/
def MaxChunkSize : Nat := 64 * 1024 * 1024

/-- Modelled from the spec: `MaxAppendSize ≤ MaxChunkSize / 4`, source
default `MaxChunkSize / 4`. -/
def MaxAppendSize : Nat := MaxChunkSize / 4

/-- Modelled from the spec: a `DataID` is a `(ChunkHandle, nonce)` pair
identifying a staged byte buffer in a replica's download buffer. -/
structure DataBufferID where
  handle : Nat
  stamp : Nat
deriving DecidableEq, Repr

/-- Association-list lookup, the model of Go map indexing `m[k]`. -/
def alookup {α β : Type} [DecidableEq α] : List (α × β) → α → Option β
  | [], _ => none
  | (k1, v) :: rest, k => if k1 = k then some v else alookup rest k

/-- Association-list removal, the model of Go `delete(m, k)`. -/
def aerase {α β : Type} [DecidableEq α] : List (α × β) → α → List (α × β)
  | [], _ => []
  | (k1, v) :: rest, k => if k1 = k then aerase rest k else (k1, v) :: aerase rest k

/-- Association-list insertion/overwrite, the model of Go `m[k] = v`. -/
def aset {α β : Type} [DecidableEq α] (l : List (α × β)) (k : α) (v : β) : List (α × β) :=
  (k, v) :: aerase l k

/-- The replica-local download buffer `DataID → bytes`.  Expiry is a
real-time concern and is not modelled; no claim depends on it. -/
abbrev Buffer := List (DataBufferID × List Nat)

/-- Modelled from the spec: download-buffer `get(id) → (bytes, ok)` (the
download-buffer implementation file is absent from the sources; §4.2). -/
def bufGet (dl : Buffer) (id : DataBufferID) : Option (List Nat) :=
  alookup dl id

/-- Modelled from the spec: download-buffer `delete(id)`. -/
def bufDelete (dl : Buffer) (id : DataBufferID) : Buffer :=
  aerase dl id

/-- Modelled from the spec: download-buffer `set(id, bytes)`. -/
def bufSet (dl : Buffer) (id : DataBufferID) (data : List Nat) : Buffer :=
  aset dl id data

/-- The error conditions the modelled handlers can report.  Go returns
free-text `error` values; the constructor names follow the messages. -/
inductive CSErr where
  | dataNotFound
  | duplicateData
  | appendTooLarge
  | writeTooLarge
  | chunkNotFound
  | duplicatedVersion
  | diskError
deriving DecidableEq, Repr

/-- `gfs.MutationType`: the three mutation kinds. -/
inductive MutationType where
  | write
  | append
  | pad
deriving DecidableEq, Repr

/-- The `Mutation` record buffered on a replica (`chunkserver.Mutation`). -/
structure Mutation where
  mtype : MutationType
  version : Nat
  data : List Nat
  offset : Nat
deriving DecidableEq, Repr

/-- Ghost record of one disk application performed by the drain routine:
the version applied, the mutation kind, and the bytes/offset handed to the
disk write. -/
structure AppEvent where
  mtype : MutationType
  version : Nat
  data : List Nat
  offset : Nat
deriving DecidableEq, Repr

/-- `chunkserver.chunkInfo`: in-memory bookkeeping of one chunk, plus the
ghost `applied` history of disk applications (newest last). -/
structure ChunkInfo where
  length : Nat
  version : Nat
  newestVersion : Nat
  mutations : List (Nat × Mutation)
  applied : List AppEvent
deriving DecidableEq, Repr

/-- The chunk entry `RPCCreateChunk` installs: zero length, zero-valued
version counters, empty mutation buffer. -/
def freshChunk : ChunkInfo :=
  { length := 0, version := 0, newestVersion := 0, mutations := [], applied := [] }

/-- `chunkInfo.nextVersion`: pre-increment of `newestVersion`. -/
def nextVersion (ck : ChunkInfo) : ChunkInfo × Nat :=
  ({ ck with newestVersion := ck.newestVersion + 1 }, ck.newestVersion + 1)

/-- `ChunkServer.writeChunk`: updates the in-memory `length` (when the write
extends the chunk) and `version`, then performs the disk write; `diskOk`
stands for whether that disk write succeeds.  The state updates happen
before the disk I/O, exactly as in the source. -/
def writeChunk (ck : ChunkInfo) (version : Nat) (data : List Nat) (offset : Nat)
    (diskOk : Bool) : ChunkInfo × Bool :=
  let newLen := offset + data.length
  ({ ck with length := if newLen > ck.length then newLen else ck.length,
             version := version }, diskOk)

/-- The bytes the drain routine hands to the disk for a mutation of the
given kind: a `Pad` writes the single byte `[0]`, the other kinds write the
mutation's own data. -/
def applyData (mtype : MutationType) (data : List Nat) : List Nat :=
  match mtype with
  | .pad => [0]
  | _ => data

/-- The offset the drain routine hands to the disk for a mutation of the
given kind: a `Pad` targets `MaxChunkSize - 1`, the other kinds the
mutation's own offset. -/
def applyOffset (mtype : MutationType) (offset : Nat) : Nat :=
  match mtype with
  | .pad => MaxChunkSize - 1
  | _ => offset

/-- The body of the `for` loop of `ChunkServer.doMutation`, with explicit
fuel.  Each iteration looks up the mutation at `version + 1` and applies it
through `writeChunk` (`Pad` writing `[0]` at `MaxChunkSize - 1`).  The
mutation is removed from the buffer before the disk error is checked.  The
second component is `true` when a disk write failed (the Go `return err`). -/
def doMutationLoop (disk : Nat → Bool) (ck : ChunkInfo) : Nat → ChunkInfo × Bool
  | 0 => (ck, false)
  | fuel + 1 =>
    match alookup ck.mutations (ck.version + 1) with
    | none => (ck, false)
    | some m =>
      let p := writeChunk ck m.version (applyData m.mtype m.data)
        (applyOffset m.mtype m.offset) (disk m.version)
      let ck2 := { p.1 with
        mutations := aerase p.1.mutations m.version,
        applied := p.1.applied ++
          [⟨m.mtype, m.version, applyData m.mtype m.data, applyOffset m.mtype m.offset⟩] }
      if p.2 then doMutationLoop disk ck2 fuel else (ck2, true)

/-- The tail of `ChunkServer.doMutation` after its loop: a disk error was
already returned (skipping the resync), otherwise when
`len(ck.mutations) == 0` the routine resyncs `newestVersion := version`. -/
def resync : ChunkInfo × Bool → ChunkInfo × Bool
  | (ck, true) => (ck, true)
  | (ck, false) =>
    if ck.mutations.length = 0 then ({ ck with newestVersion := ck.version }, false)
    else (ck, false)

/-- `ChunkServer.doMutation`: drains the mutation buffer in ascending version
order, then resyncs the version counters when the buffer has emptied.  The
Go loop is unbounded; on every state whose buffered mutations are stored
under their own version as key it removes one entry per iteration, so
`ck.mutations.length` steps of fuel reproduce it exactly. -/
def doMutation (disk : Nat → Bool) (ck : ChunkInfo) : ChunkInfo × Bool :=
  resync (doMutationLoop disk ck ck.mutations.length)

/-- Reply of `ChunkServer.RPCAppendChunk`. -/
inductive ErrorCode where
  | success
  | appendExceedChunkSize
deriving DecidableEq, Repr

/-- `AppendChunkReply`: the chunk offset at which the record was placed and
the error code (`AppendExceedChunkSize` signals pad-and-retry). -/
structure AppendChunkReply where
  offset : Nat
  errorCode : ErrorCode
deriving DecidableEq, Repr

/-- `ChunkServer.deleteDownloadedData`: look the staged bytes up, fail with
`DataNotFound` when absent, otherwise delete the entry and return the
bytes. -/
def deleteDownloadedData (dl : Buffer) (id : DataBufferID) :
    Except CSErr (List Nat × Buffer) :=
  match bufGet dl id with
  | none => .error .dataNotFound
  | some data => .ok (data, bufDelete dl id)

/-- `ChunkServer.RPCForwardData`: fails with a duplicate-data error when the
`DataID` is already present (leaving the stored bytes untouched), otherwise
stores the pushed bytes. -/
def RPCForwardData (dl : Buffer) (id : DataBufferID) (data : List Nat) :
    Buffer × Option CSErr :=
  match bufGet dl id with
  | some _ => (dl, some .duplicateData)
  | none => (bufSet dl id data, none)

/-- The version-allocation tail shared by `RPCWriteChunk` and
`RPCAppendChunk` (lines 507-516 and 561-574 of the chunkserver): allocate
`nextVersion`, reject if that slot is already occupied
(`DuplicatedVersion`), otherwise buffer the mutation under it and drain
with the local `doMutation`. -/
def commitMutation (disk : Nat → Bool) (mtype : MutationType) (data : List Nat)
    (offset : Nat) (ck : ChunkInfo) : ChunkInfo × Option CSErr :=
  let p := nextVersion ck
  let ck2 := p.1
  let version := p.2
  if (alookup ck2.mutations version).isSome then
    (ck2, some .duplicatedVersion)
  else
    let ck3 := { ck2 with mutations := aset ck2.mutations version ⟨mtype, version, data, offset⟩ }
    let q := doMutation disk ck3
    if q.2 then (q.1, some .diskError)
    else (q.1, none)

/-- The section of `ChunkServer.RPCAppendChunk` run under the chunk lock,
followed by the local `doMutation`: if the append overflows the chunk,
elect `Pad`, set `length = MaxChunkSize` and reply `AppendExceedChunkSize`;
otherwise elect `Append` and set `length = length + len(data)`; either way
the reply offset is the prior length.  The fan-out of `ApplyMutation` to
the secondaries acts on other servers and is outside this single-server
state. -/
def appendChunkLocal (disk : Nat → Bool) (data : List Nat) (ck : ChunkInfo) :
    ChunkInfo × Except CSErr AppendChunkReply :=
  let newLen := ck.length + data.length
  let offset := ck.length
  if newLen > MaxChunkSize then
    let r := commitMutation disk .pad data offset { ck with length := MaxChunkSize }
    (r.1, match r.2 with
      | some e => .error e
      | none => .ok ⟨offset, .appendExceedChunkSize⟩)
  else
    let r := commitMutation disk .append data offset { ck with length := newLen }
    (r.1, match r.2 with
      | some e => .error e
      | none => .ok ⟨offset, .success⟩)

/-- The section of `ChunkServer.RPCWriteChunk` from the chunk lock on:
extend `length` to `offset + len(data)` when that is larger, then allocate
the next version, buffer the `Write` mutation and drain. -/
def writeChunkLocal (disk : Nat → Bool) (data : List Nat) (offset : Nat) (ck : ChunkInfo) :
    ChunkInfo × Option CSErr :=
  commitMutation disk .write data offset
    (if offset + data.length > ck.length then { ck with length := offset + data.length } else ck)

/-- The section of `ChunkServer.RPCApplyMutation` from the chunk lock on:
reject a version collision, otherwise buffer the forwarded mutation under
the primary-assigned version and drain. -/
def applyMutationLocal (disk : Nat → Bool) (mtype : MutationType) (version : Nat)
    (data : List Nat) (offset : Nat) (ck : ChunkInfo) : ChunkInfo × Option CSErr :=
  if (alookup ck.mutations version).isSome then
    (ck, some .duplicatedVersion)
  else
    let ck1 := { ck with mutations := aset ck.mutations version ⟨mtype, version, data, offset⟩ }
    let q := doMutation disk ck1
    if q.2 then (q.1, some .diskError)
    else (q.1, none)

/-- The state of one chunkserver: download buffer, chunk table, and the set
of handles whose backing file exists on disk (`O_CREATE` creation). -/
structure ChunkServerState where
  dl : Buffer
  chunk : List (Nat × ChunkInfo)
  files : List Nat
deriving DecidableEq, Repr

/-- `ChunkServer.RPCCreateChunk`: a second create on an existing handle is a
logged warning and a `nil` return that touches neither the in-memory entry
nor the backing file; a first create installs `freshChunk` and creates the
backing file (`O_CREATE` without truncation). -/
def RPCCreateChunk (s : ChunkServerState) (handle : Nat) :
    ChunkServerState × Option CSErr :=
  match alookup s.chunk handle with
  | some _ => (s, none)
  | none =>
    ({ s with chunk := aset s.chunk handle freshChunk,
              files := if handle ∈ s.files then s.files else handle :: s.files }, none)

/-- `ChunkServer.RPCAppendChunk`: consume the staged data (fail with
`DataNotFound` if absent), reject appends over `MaxAppendSize`, find the
chunk, then run the locked append-or-pad section and the drain.  The chunk
entry is shared by pointer in Go, so every branch writes the updated entry
back. -/
def RPCAppendChunk (disk : Nat → Bool) (s : ChunkServerState) (id : DataBufferID) :
    ChunkServerState × Except CSErr AppendChunkReply :=
  match deleteDownloadedData s.dl id with
  | .error e => (s, .error e)
  | .ok (data, dl1) =>
    let s1 := { s with dl := dl1 }
    if data.length > MaxAppendSize then (s1, .error .appendTooLarge)
    else
      match alookup s1.chunk id.handle with
      | none => (s1, .error .chunkNotFound)
      | some ck =>
        let r := appendChunkLocal disk data ck
        ({ s1 with chunk := aset s1.chunk id.handle r.1 }, r.2)

/-- `ChunkServer.RPCWriteChunk`: consume the staged data, reject writes
whose `offset + len(data)` exceeds `MaxChunkSize`, find the chunk, then run
the locked write section and the drain. -/
def RPCWriteChunk (disk : Nat → Bool) (s : ChunkServerState) (id : DataBufferID)
    (offset : Nat) : ChunkServerState × Option CSErr :=
  match deleteDownloadedData s.dl id with
  | .error e => (s, some e)
  | .ok (data, dl1) =>
    let s1 := { s with dl := dl1 }
    if offset + data.length > MaxChunkSize then (s1, some .writeTooLarge)
    else
      match alookup s1.chunk id.handle with
      | none => (s1, some .chunkNotFound)
      | some ck =>
        let r := writeChunkLocal disk data offset ck
        ({ s1 with chunk := aset s1.chunk id.handle r.1 }, r.2)

/-- `ChunkServer.RPCApplyMutation`: consume the staged data, find the chunk,
buffer the forwarded mutation under the primary-assigned version and
drain. -/
def RPCApplyMutation (disk : Nat → Bool) (s : ChunkServerState) (mtype : MutationType)
    (version : Nat) (id : DataBufferID) (offset : Nat) :
    ChunkServerState × Option CSErr :=
  match deleteDownloadedData s.dl id with
  | .error e => (s, some e)
  | .ok (data, dl1) =>
    let s1 := { s with dl := dl1 }
    match alookup s1.chunk id.handle with
    | none => (s1, some .chunkNotFound)
    | some ck =>
      let r := applyMutationLocal disk mtype version data offset ck
      ({ s1 with chunk := aset s1.chunk id.handle r.1 }, r.2)

/-- A chunkserver before any RPC: empty buffer, no chunks, no files. -/
def initState : ChunkServerState := { dl := [], chunk := [], files := [] }

/-- The disk oracle of normal operation: every disk write succeeds. -/
def diskOK : Nat → Bool := fun _ => true

/-- States of one chunkserver reachable by complete executions of the
modelled RPC handlers under normal disk operation.  `forwardData` stages
bytes pushed by a peer; `applyMutation` carries a primary-assigned version,
which the network may deliver in any order. -/
inductive Reach : ChunkServerState → Prop where
  | init : Reach initState
  | createChunk {s} (hs : Reach s) (handle : Nat) :
      Reach (RPCCreateChunk s handle).1
  | forwardData {s} (hs : Reach s) (id : DataBufferID) (data : List Nat) :
      Reach { s with dl := (RPCForwardData s.dl id data).1 }
  | appendChunk {s} (hs : Reach s) (id : DataBufferID) :
      Reach (RPCAppendChunk diskOK s id).1
  | writeChunk {s} (hs : Reach s) (id : DataBufferID) (offset : Nat) :
      Reach (RPCWriteChunk diskOK s id offset).1
  | applyMutation {s} (hs : Reach s) (mtype : MutationType) (version : Nat)
      (id : DataBufferID) (offset : Nat) :
      Reach (RPCApplyMutation diskOK s mtype version id offset).1

/-- Like `Reach`, but every `ApplyMutation` arrives in version order: its
version is the successor of the target chunk's `newestVersion`. -/
inductive ReachOrd : ChunkServerState → Prop where
  | init : ReachOrd initState
  | createChunk {s} (hs : ReachOrd s) (handle : Nat) :
      ReachOrd (RPCCreateChunk s handle).1
  | forwardData {s} (hs : ReachOrd s) (id : DataBufferID) (data : List Nat) :
      ReachOrd { s with dl := (RPCForwardData s.dl id data).1 }
  | appendChunk {s} (hs : ReachOrd s) (id : DataBufferID) :
      ReachOrd (RPCAppendChunk diskOK s id).1
  | writeChunk {s} (hs : ReachOrd s) (id : DataBufferID) (offset : Nat) :
      ReachOrd (RPCWriteChunk diskOK s id offset).1
  | applyMutation {s} (hs : ReachOrd s) (mtype : MutationType) (version : Nat)
      (id : DataBufferID) (offset : Nat)
      (hord : ∀ ck, alookup s.chunk id.handle = some ck → version = ck.newestVersion + 1) :
      ReachOrd (RPCApplyMutation diskOK s mtype version id offset).1

/-- The invariant of spec §8.2: on every chunk of the replica,
`version ≤ newestVersion`, and the mutation buffer is empty iff
`version = newestVersion`. -/
def chunkCounterInv (s : ChunkServerState) : Prop :=
  ∀ handle ck, alookup s.chunk handle = some ck →
    ck.version ≤ ck.newestVersion ∧ (ck.mutations = [] ↔ ck.version = ck.newestVersion)

/-- Quiescence: every chunk of the replica has an empty mutation buffer and
`version = newestVersion`. -/
def quiescentInv (s : ChunkServerState) : Prop :=
  ∀ handle ck, alookup s.chunk handle = some ck →
    ck.mutations = [] ∧ ck.version = ck.newestVersion

/-- A reachable state in which chunk 1 has received the forwarded mutation
of version 2 before the one of version 1: create the chunk, stage data for
`DataID (1, 0)`, then apply a mutation carrying version 2. -/
def c2State : ChunkServerState :=
  (RPCApplyMutation diskOK
    { (RPCCreateChunk initState 1).1 with
        dl := (RPCForwardData (RPCCreateChunk initState 1).1.dl ⟨1, 0⟩ [42]).1 }
    .append 2 ⟨1, 0⟩ 0).1

/-- Client-side size check of `Client.WriteChunk`: the write is rejected
exactly when `len(data) + offset > MaxChunkSize`. -/
def clientWriteChunkRejects (offset dataLen : Nat) : Bool :=
  decide (dataLen + offset > MaxChunkSize)

/-- Up-front offset check of `Client.Read`: the read is rejected exactly
when `offset / MaxChunkSize` exceeds the file's chunk count. -/
def readOffsetRejected (offset chunks : Nat) : Bool :=
  decide (offset / MaxChunkSize > chunks)

/-- Up-front offset check of `Client.Write`: same comparison as the read
path. -/
def writeOffsetRejected (offset chunks : Nat) : Bool :=
  decide (offset / MaxChunkSize > chunks)

/-- Outcome of one `Client.AppendChunk` call as observed by the retry loop
of `Client.Append`: success with a chunk offset, the pad signal
`AppendExceedChunkSize` with its advisory offset, or any other error. -/
inductive AppendChunkResult where
  | ok (offset : Nat)
  | exceed (offset : Nat)
  | fail
deriving DecidableEq, Repr

/-- The retry loops of `Client.Append`, driven by the stream of
`AppendChunk` outcomes: success stops with the current chunk index and the
replied offset, the pad signal advances to the next chunk index, any other
error retries the same chunk.  An exhausted stream (`[]`) models a run that
is still retrying. -/
def appendLoop : List AppendChunkResult → Nat → Option (Nat × Nat)
  | [], _ => none
  | .ok off :: _, start => some (start, off)
  | .exceed _ :: rs, start => appendLoop rs (start + 1)
  | .fail :: rs, start => appendLoop rs start

/-- `Client.Append`: refuse records larger than `MaxAppendSize`; otherwise
start at the file's last chunk index (`chunks - 1`, clamped to `0` for an
empty file, as the source clamps its negative index), run the retry loops,
and on success return `start * MaxChunkSize + replyOffset`. -/
def clientAppend (chunks dataLen : Nat) (resps : List AppendChunkResult) :
    Except Unit (Option Nat) :=
  if dataLen > MaxAppendSize then .error ()
  else .ok ((appendLoop resps (chunks - 1)).map
    (fun p => p.1 * MaxChunkSize + p.2))

/-- The number of `AppendExceedChunkSize` outcomes in a response stream:
how many chunk indices the append loop skips past. -/
def countExceed : List AppendChunkResult → Nat
  | [] => 0
  | .exceed _ :: rs => countExceed rs + 1
  | _ :: rs => countExceed rs

/-- `util.Sample(n, k)`: error when `n < k`, otherwise the first `k`
entries of `rand.Perm(n)`; the random permutation is an explicit
parameter. -/
def Sample (n k : Nat) (perm : List Nat) : Option (List Nat) :=
  if n < k then none else some (perm.take k)

/-- `chunkServerManager.ChooseServers`: reject when more servers are asked
for than are registered, otherwise index the registered addresses (given as
the key list of the server map, addresses modelled as `Nat`) by the
sampled positions. -/
def ChooseServers (servers : List Nat) (num : Nat) (perm : List Nat) :
    Option (List Nat) :=
  if num > servers.length then none
  else
    match Sample servers.length num perm with
    | none => none
    | some choose => some (choose.map (fun i => servers.getD i 0))

/-! ## Association-list lemmas -/

theorem alookup_aerase {α β : Type} [DecidableEq α] (l : List (α × β)) (k k' : α) :
    alookup (aerase l k) k' = if k = k' then none else alookup l k' := by
  induction l with
  | nil => simp [aerase, alookup]
  | cons hd tl ih =>
    obtain ⟨k1, v1⟩ := hd
    by_cases h1 : k1 = k <;> by_cases h2 : k = k'
    · subst h1; subst h2
      simp [aerase, ih]
    · subst h1
      simp [aerase, alookup, h2, ih]
    · subst h2
      simp [aerase, alookup, h1, ih]
    · simp [aerase, alookup, h1, h2, ih]

theorem alookup_aerase_self {α β : Type} [DecidableEq α] (l : List (α × β)) (k : α) :
    alookup (aerase l k) k = none := by
  simp [alookup_aerase]

theorem alookup_aset {α β : Type} [DecidableEq α] (l : List (α × β)) (k k' : α) (v : β) :
    alookup (aset l k v) k' = if k = k' then some v else alookup l k' := by
  by_cases h : k = k'
  · simp [aset, alookup, h]
  · simp [aset, alookup, h, alookup_aerase]

theorem alookup_mem {α β : Type} [DecidableEq α] {l : List (α × β)} {k : α} {v : β}
    (h : alookup l k = some v) : (k, v) ∈ l := by
  induction l with
  | nil => cases h
  | cons hd tl ih =>
    obtain ⟨k1, v1⟩ := hd
    by_cases h1 : k1 = k
    · subst h1
      simp only [alookup, if_true, eq_self_iff_true, Option.some.injEq] at h
      subst h
      exact .head _
    · simp only [alookup] at h
      rw [if_neg h1] at h
      exact .tail _ (ih h)

theorem mem_of_mem_aerase {α β : Type} [DecidableEq α] {l : List (α × β)} {k : α}
    {p : α × β} (h : p ∈ aerase l k) : p ∈ l := by
  induction l with
  | nil => simp [aerase] at h
  | cons hd tl ih =>
    obtain ⟨k1, v1⟩ := hd
    by_cases h1 : k1 = k
    · rw [aerase, if_pos h1] at h
      exact .tail _ (ih h)
    · rw [aerase, if_neg h1] at h
      rcases List.mem_cons.mp h with h | h
      · exact h ▸ List.Mem.head _
      · exact .tail _ (ih h)

/-! ## The drain routine -/

theorem doMutationLoop_applied (disk : Nat → Bool) :
    ∀ (fuel : Nat) (ck : ChunkInfo),
      (∀ p ∈ ck.mutations, (p.2).version = p.1) →
      ∃ evs : List AppEvent,
        (doMutationLoop disk ck fuel).1.applied = ck.applied ++ evs ∧
        evs.map AppEvent.version = List.range' (ck.version + 1) evs.length ∧
        (doMutationLoop disk ck fuel).1.version = ck.version + evs.length ∧
        (doMutationLoop disk ck fuel).1.newestVersion = ck.newestVersion := by
  intro fuel
  induction fuel with
  | zero =>
    intro ck hwf
    exact ⟨[], by simp [doMutationLoop], by simp, by simp [doMutationLoop],
      by simp [doMutationLoop]⟩
  | succ fuel ih =>
    intro ck hwf
    rcases hlk : alookup ck.mutations (ck.version + 1) with _ | m
    · exact ⟨[], by simp [doMutationLoop, hlk], by simp, by simp [doMutationLoop, hlk],
        by simp [doMutationLoop, hlk]⟩
    · have hmv : m.version = ck.version + 1 := hwf (ck.version + 1, m) (alookup_mem hlk)
      rcases hd : disk (ck.version + 1) with _ | _
      · -- disk failure: the loop stops after this one application
        refine ⟨[⟨m.mtype, ck.version + 1, applyData m.mtype m.data, applyOffset m.mtype m.offset⟩],
          ?_, ?_, ?_, ?_⟩ <;>
          simp [doMutationLoop, hlk, hd, writeChunk, hmv]
      · -- disk success: recurse on the reduced buffer
        set ck2 : ChunkInfo :=
          { length := if applyOffset m.mtype m.offset + (applyData m.mtype m.data).length > ck.length
                then applyOffset m.mtype m.offset + (applyData m.mtype m.data).length
                else ck.length,
            version := ck.version + 1,
            newestVersion := ck.newestVersion,
            mutations := aerase ck.mutations (ck.version + 1),
            applied := ck.applied ++
              [⟨m.mtype, ck.version + 1, applyData m.mtype m.data, applyOffset m.mtype m.offset⟩] }
          with hck2
        have hloop : doMutationLoop disk ck (fuel + 1) = doMutationLoop disk ck2 fuel := by
          simp [doMutationLoop, hlk, hd, writeChunk, hmv, hck2]
        have hwf2 : ∀ p ∈ ck2.mutations, (p.2).version = p.1 := by
          intro p hp
          exact hwf p (mem_of_mem_aerase (hck2 ▸ hp))
        obtain ⟨evs2, h1, h2, h3, h4⟩ := ih ck2 hwf2
        refine ⟨⟨m.mtype, ck.version + 1, applyData m.mtype m.data, applyOffset m.mtype m.offset⟩ :: evs2,
          ?_, ?_, ?_, ?_⟩
        · rw [hloop, h1]
          simp [hck2]
        · simp only [List.map_cons, List.length_cons]
          rw [List.range'_succ, h2]
        · rw [hloop, h3]
          simp [hck2]
          omega
        · rw [hloop, h4]

theorem doMutation_singleton (disk : Nat → Bool) (ck : ChunkInfo) (m : Mutation)
    (hmut : ck.mutations = [(ck.version + 1, m)])
    (hv : m.version = ck.version + 1)
    (hdisk : disk (ck.version + 1) = true) :
    doMutation disk ck =
      ({ length := if applyOffset m.mtype m.offset + (applyData m.mtype m.data).length > ck.length
            then applyOffset m.mtype m.offset + (applyData m.mtype m.data).length
            else ck.length,
         version := ck.version + 1,
         newestVersion := ck.version + 1,
         mutations := [],
         applied := ck.applied ++
           [⟨m.mtype, ck.version + 1, applyData m.mtype m.data, applyOffset m.mtype m.offset⟩] },
       false) := by
  have hlen : ck.mutations.length = 0 + 1 := by rw [hmut]; rfl
  unfold doMutation
  rw [hlen]
  simp [doMutationLoop, hmut, alookup, aerase, resync, writeChunk, hv, hdisk]

theorem commitMutation_quiescent (disk : Nat → Bool) (mtype : MutationType)
    (data : List Nat) (offset : Nat) (ck : ChunkInfo)
    (hq : ck.mutations = []) (hveq : ck.version = ck.newestVersion)
    (hdisk : disk (ck.version + 1) = true) :
    commitMutation disk mtype data offset ck =
      ({ length := if applyOffset mtype offset + (applyData mtype data).length > ck.length
            then applyOffset mtype offset + (applyData mtype data).length
            else ck.length,
         version := ck.version + 1,
         newestVersion := ck.version + 1,
         mutations := [],
         applied := ck.applied ++
           [⟨mtype, ck.version + 1, applyData mtype data, applyOffset mtype offset⟩] },
       none) := by
  have hsing := doMutation_singleton disk
    { length := ck.length, version := ck.version, newestVersion := ck.version + 1,
      mutations := [(ck.version + 1, ⟨mtype, ck.version + 1, data, offset⟩)],
      applied := ck.applied }
    ⟨mtype, ck.version + 1, data, offset⟩ rfl rfl hdisk
  unfold commitMutation nextVersion
  rw [← hveq]
  simp only [hq, aset, aerase, alookup]
  rw [hsing]
  simp

theorem appendChunkLocal_quiescent (disk : Nat → Bool) (data : List Nat) (ck : ChunkInfo)
    (hq : ck.mutations = []) (hveq : ck.version = ck.newestVersion)
    (hdisk : disk (ck.version + 1) = true) :
    appendChunkLocal disk data ck =
      (if ck.length + data.length > MaxChunkSize then
        ({ length := MaxChunkSize, version := ck.version + 1, newestVersion := ck.version + 1,
           mutations := [],
           applied := ck.applied ++ [⟨.pad, ck.version + 1, [0], MaxChunkSize - 1⟩] },
         .ok ⟨ck.length, .appendExceedChunkSize⟩)
      else
        ({ length := ck.length + data.length, version := ck.version + 1,
           newestVersion := ck.version + 1, mutations := [],
           applied := ck.applied ++ [⟨.append, ck.version + 1, data, ck.length⟩] },
         .ok ⟨ck.length, .success⟩)) := by
  have hmax : MaxChunkSize - 1 + 1 = MaxChunkSize := by decide
  unfold appendChunkLocal
  by_cases hc : ck.length + data.length > MaxChunkSize
  · rw [if_pos hc, if_pos hc,
      commitMutation_quiescent disk .pad data ck.length { ck with length := MaxChunkSize }
        hq hveq hdisk]
    simp [applyData, applyOffset, hmax]
  · rw [if_neg hc, if_neg hc,
      commitMutation_quiescent disk .append data ck.length
        { ck with length := ck.length + data.length } hq hveq hdisk]
    simp [applyData, applyOffset]

theorem writeChunkLocal_quiescent (disk : Nat → Bool) (data : List Nat) (offset : Nat)
    (ck : ChunkInfo) (hq : ck.mutations = []) (hveq : ck.version = ck.newestVersion)
    (hdisk : disk (ck.version + 1) = true) :
    writeChunkLocal disk data offset ck =
      ({ length := if offset + data.length > ck.length then offset + data.length else ck.length,
         version := ck.version + 1, newestVersion := ck.version + 1, mutations := [],
         applied := ck.applied ++ [⟨.write, ck.version + 1, data, offset⟩] }, none) := by
  unfold writeChunkLocal
  by_cases hc : offset + data.length > ck.length
  · rw [if_pos hc,
      commitMutation_quiescent disk .write data offset { ck with length := offset + data.length }
        hq hveq hdisk]
    simp [applyData, applyOffset, hc]
  · rw [if_neg hc, commitMutation_quiescent disk .write data offset ck hq hveq hdisk]
    simp [applyData, applyOffset, hc]

theorem applyMutationLocal_quiescent (disk : Nat → Bool) (mtype : MutationType)
    (version : Nat) (data : List Nat) (offset : Nat) (ck : ChunkInfo)
    (hq : ck.mutations = []) (hveq : ck.version = ck.newestVersion)
    (hver : version = ck.newestVersion + 1) (hdisk : disk (ck.version + 1) = true) :
    applyMutationLocal disk mtype version data offset ck =
      ({ length := if applyOffset mtype offset + (applyData mtype data).length > ck.length
            then applyOffset mtype offset + (applyData mtype data).length else ck.length,
         version := ck.version + 1, newestVersion := ck.version + 1, mutations := [],
         applied := ck.applied ++
           [⟨mtype, ck.version + 1, applyData mtype data, applyOffset mtype offset⟩] },
       none) := by
  have hsing := doMutation_singleton disk
    { length := ck.length, version := ck.version, newestVersion := ck.version,
      mutations := [(ck.version + 1, ⟨mtype, ck.version + 1, data, offset⟩)],
      applied := ck.applied }
    ⟨mtype, ck.version + 1, data, offset⟩ rfl rfl hdisk
  subst hver
  unfold applyMutationLocal
  rw [← hveq]
  simp only [hq, alookup, aset, aerase]
  rw [hsing]
  simp

/-! ## Quiescence of in-order reachable states -/

theorem quiescentInv_of_chunk_eq {s t : ChunkServerState} (h : t.chunk = s.chunk)
    (hs : quiescentInv s) : quiescentInv t := by
  intro handle ck hl
  rw [h] at hl
  exact hs handle ck hl

theorem quiescentInv_aset {s t : ChunkServerState} {handle : Nat} {ck : ChunkInfo}
    (h : t.chunk = aset s.chunk handle ck)
    (hck : ck.mutations = [] ∧ ck.version = ck.newestVersion)
    (hs : quiescentInv s) : quiescentInv t := by
  intro h' ck' hl
  rw [h, alookup_aset] at hl
  by_cases he : handle = h'
  · rw [if_pos he] at hl
    cases hl
    exact hck
  · rw [if_neg he] at hl
    exact hs h' ck' hl

theorem quiescentInv_RPCCreateChunk (s : ChunkServerState) (handle : Nat)
    (hs : quiescentInv s) : quiescentInv (RPCCreateChunk s handle).1 := by
  unfold RPCCreateChunk
  rcases h : alookup s.chunk handle with _ | ck
  · dsimp only
    exact quiescentInv_aset rfl ⟨rfl, rfl⟩ hs
  · dsimp only
    exact quiescentInv_of_chunk_eq rfl hs

theorem quiescentInv_RPCAppendChunk (s : ChunkServerState) (id : DataBufferID)
    (hs : quiescentInv s) : quiescentInv (RPCAppendChunk diskOK s id).1 := by
  unfold RPCAppendChunk
  rcases hdl : deleteDownloadedData s.dl id with e | p
  · dsimp only
    exact quiescentInv_of_chunk_eq rfl hs
  · obtain ⟨data, dl1⟩ := p
    dsimp only
    by_cases hlen : data.length > MaxAppendSize
    · simp only [if_pos hlen]
      exact quiescentInv_of_chunk_eq rfl hs
    · simp only [if_neg hlen]
      rcases hck : alookup s.chunk id.handle with _ | ck
      · dsimp only
        exact quiescentInv_of_chunk_eq rfl hs
      · obtain ⟨h1, h2⟩ := hs id.handle ck hck
        dsimp only
        rw [appendChunkLocal_quiescent diskOK data ck h1 h2 rfl]
        by_cases hc : ck.length + data.length > MaxChunkSize
        · rw [if_pos hc]
          exact quiescentInv_aset rfl ⟨rfl, rfl⟩ hs
        · rw [if_neg hc]
          exact quiescentInv_aset rfl ⟨rfl, rfl⟩ hs

theorem quiescentInv_RPCWriteChunk (s : ChunkServerState) (id : DataBufferID)
    (offset : Nat) (hs : quiescentInv s) :
    quiescentInv (RPCWriteChunk diskOK s id offset).1 := by
  unfold RPCWriteChunk
  rcases hdl : deleteDownloadedData s.dl id with e | p
  · dsimp only
    exact quiescentInv_of_chunk_eq rfl hs
  · obtain ⟨data, dl1⟩ := p
    dsimp only
    by_cases hlen : offset + data.length > MaxChunkSize
    · simp only [if_pos hlen]
      exact quiescentInv_of_chunk_eq rfl hs
    · simp only [if_neg hlen]
      rcases hck : alookup s.chunk id.handle with _ | ck
      · dsimp only
        exact quiescentInv_of_chunk_eq rfl hs
      · obtain ⟨h1, h2⟩ := hs id.handle ck hck
        dsimp only
        rw [writeChunkLocal_quiescent diskOK data offset ck h1 h2 rfl]
        exact quiescentInv_aset rfl ⟨rfl, rfl⟩ hs

theorem quiescentInv_RPCApplyMutation (s : ChunkServerState) (mtype : MutationType)
    (version : Nat) (id : DataBufferID) (offset : Nat)
    (hord : ∀ ck, alookup s.chunk id.handle = some ck → version = ck.newestVersion + 1)
    (hs : quiescentInv s) :
    quiescentInv (RPCApplyMutation diskOK s mtype version id offset).1 := by
  unfold RPCApplyMutation
  rcases hdl : deleteDownloadedData s.dl id with e | p
  · dsimp only
    exact quiescentInv_of_chunk_eq rfl hs
  · obtain ⟨data, dl1⟩ := p
    dsimp only
    rcases hck : alookup s.chunk id.handle with _ | ck
    · dsimp only
      exact quiescentInv_of_chunk_eq rfl hs
    · obtain ⟨h1, h2⟩ := hs id.handle ck hck
      dsimp only
      rw [applyMutationLocal_quiescent diskOK mtype version data offset ck h1 h2
        (hord ck hck) rfl]
      exact quiescentInv_aset rfl ⟨rfl, rfl⟩ hs

theorem reachOrd_quiescent {s : ChunkServerState} (hs : ReachOrd s) : quiescentInv s := by
  induction hs with
  | init => intro handle ck hl; cases hl
  | createChunk _ handle ih => exact quiescentInv_RPCCreateChunk _ handle ih
  | forwardData _ id data ih => exact quiescentInv_of_chunk_eq rfl ih
  | appendChunk _ id ih => exact quiescentInv_RPCAppendChunk _ id ih
  | writeChunk _ id offset ih => exact quiescentInv_RPCWriteChunk _ id offset ih
  | applyMutation _ mtype version id offset hord ih =>
    exact quiescentInv_RPCApplyMutation _ mtype version id offset hord ih

/-! ## Claim theorems -/

/-- C5: a download-buffer entry is consumed exactly once on commit —
`deleteDownloadedData` on a present `DataID` returns the staged bytes and
removes the entry, a second commit (and any commit of an absent `DataID`)
fails with `DataNotFound`, and `RPCForwardData` on a present `DataID` fails
with the duplicate-data error leaving the buffer untouched, while on an
absent one it stores the bytes. -/
theorem downloadBuffer_consume_once (dl dl' : Buffer) (id id' : DataBufferID)
    (data d2 d3 : List Nat)
    (hpresent : bufGet dl id = some data)
    (habsent : bufGet dl' id' = none) :
    deleteDownloadedData dl id = .ok (data, bufDelete dl id) ∧
    bufGet (bufDelete dl id) id = none ∧
    deleteDownloadedData (bufDelete dl id) id = .error .dataNotFound ∧
    RPCForwardData dl id d2 = (dl, some .duplicateData) ∧
    deleteDownloadedData dl' id' = .error .dataNotFound ∧
    RPCForwardData dl' id' d3 = (bufSet dl' id' d3, none) := by
  have hdel : bufGet (bufDelete dl id) id = none := alookup_aerase_self dl id
  refine ⟨?_, hdel, ?_, ?_, ?_, ?_⟩
  · unfold deleteDownloadedData
    rw [hpresent]
  · unfold deleteDownloadedData
    rw [hdel]
  · unfold RPCForwardData
    rw [hpresent]
  · unfold deleteDownloadedData
    rw [habsent]
  · unfold RPCForwardData
    rw [habsent]

/-- Witness for C5 on a one-entry buffer. -/
theorem downloadBuffer_consume_once_witness :
    deleteDownloadedData [(⟨1, 0⟩, [7])] ⟨1, 0⟩ = .ok ([7], bufDelete [(⟨1, 0⟩, [7])] ⟨1, 0⟩) ∧
    bufGet (bufDelete [(⟨1, 0⟩, [7])] ⟨1, 0⟩) ⟨1, 0⟩ = none ∧
    deleteDownloadedData (bufDelete [(⟨1, 0⟩, [7])] ⟨1, 0⟩) ⟨1, 0⟩ = .error .dataNotFound ∧
    RPCForwardData [(⟨1, 0⟩, [7])] ⟨1, 0⟩ [9] = ([(⟨1, 0⟩, [7])], some .duplicateData) ∧
    deleteDownloadedData [] ⟨2, 0⟩ = .error .dataNotFound ∧
    RPCForwardData [] ⟨2, 0⟩ [9] = (bufSet [] ⟨2, 0⟩ [9], none) :=
  downloadBuffer_consume_once [(⟨1, 0⟩, [7])] [] ⟨1, 0⟩ ⟨2, 0⟩ [7] [9] [9]
    (by decide) (by decide)

/-- A `CreateChunk` on a handle the replica already has returns `nil`
without touching any state. -/
theorem rpcCreateChunk_existing {s : ChunkServerState} {handle : Nat} {ck : ChunkInfo}
    (h : alookup s.chunk handle = some ck) :
    RPCCreateChunk s handle = (s, none) := by
  unfold RPCCreateChunk
  rw [h]

/-- C8: calling `CreateChunk` twice with the same handle is a no-op after
the first call — the second call returns no error and leaves the replica
state (in-memory chunk entry and backing-file set) exactly as the first
call left it. -/
theorem createChunk_idempotent (s : ChunkServerState) (handle : Nat) :
    RPCCreateChunk (RPCCreateChunk s handle).1 handle = ((RPCCreateChunk s handle).1, none) := by
  rcases h : alookup s.chunk handle with _ | ck
  · have h1 : RPCCreateChunk s handle =
        ({ s with
            chunk := aset s.chunk handle freshChunk,
            files := if handle ∈ s.files then s.files else handle :: s.files }, none) := by
      unfold RPCCreateChunk
      rw [h]
    rw [h1]
    exact rpcCreateChunk_existing (by rw [alookup_aset]; exact if_pos rfl)
  · rw [rpcCreateChunk_existing h]
    exact rpcCreateChunk_existing h

/-- C10: the up-front offset checks of `Client.Read` and `Client.Write`
reject exactly when `offset / MaxChunkSize` is strictly greater than the
file's chunk count; every offset whose chunk index equals the chunk count
passes them. -/
theorem offset_check_boundary (offset chunks : Nat) :
    (readOffsetRejected offset chunks = true ↔ chunks < offset / MaxChunkSize) ∧
    (writeOffsetRejected offset chunks = true ↔ chunks < offset / MaxChunkSize) ∧
    (offset / MaxChunkSize = chunks →
      readOffsetRejected offset chunks = false ∧ writeOffsetRejected offset chunks = false) := by
  refine ⟨?_, ?_, ?_⟩
  · simp [readOffsetRejected]
  · simp [writeOffsetRejected]
  · intro h
    constructor <;> simp [readOffsetRejected, writeOffsetRejected, h]

/-- Witness for C10: one chunk past the last existing chunk passes, one
further is rejected (`MaxChunkSize = 2^26`). -/
theorem offset_check_boundary_witness :
    readOffsetRejected (3 * MaxChunkSize) 3 = false ∧
    readOffsetRejected (4 * MaxChunkSize) 3 = true :=
  ⟨((offset_check_boundary (3 * MaxChunkSize) 3).2.2 (by decide)).1,
   (offset_check_boundary (4 * MaxChunkSize) 3).1.mpr (by decide)⟩

/-- The append retry loop reaches the first successful reply after skipping
one chunk index per `AppendExceedChunkSize` signal and staying put on other
errors. -/
theorem appendLoop_success (off : Nat) :
    ∀ (pre : List AppendChunkResult) (rest : List AppendChunkResult) (start : Nat),
      (∀ r ∈ pre, ∀ o, r ≠ AppendChunkResult.ok o) →
      appendLoop (pre ++ .ok off :: rest) start = some (start + countExceed pre, off) := by
  intro pre
  induction pre with
  | nil =>
    intro rest start _
    simp [appendLoop, countExceed]
  | cons r rs ih =>
    intro rest start h
    cases r with
    | ok o => exact absurd rfl (h _ (.head _) o)
    | exceed o =>
      show appendLoop (rs ++ .ok off :: rest) (start + 1) =
        some (start + countExceed (.exceed o :: rs), off)
      rw [ih rest (start + 1) (fun x hx => h x (.tail _ hx))]
      have hcnt : countExceed (AppendChunkResult.exceed o :: rs) = countExceed rs + 1 := rfl
      rw [hcnt]
      simp only [Option.some.injEq, Prod.mk.injEq]
      exact ⟨by omega, trivial⟩
    | fail =>
      show appendLoop (rs ++ .ok off :: rest) start =
        some (start + countExceed (.fail :: rs), off)
      exact ih rest start (fun x hx => h x (.tail _ hx))

/-- C4: `Client.Append` refuses records over `MaxAppendSize`; otherwise it
starts at the file's last chunk index (`chunks - 1`, clamped to 0), skips
one chunk index per `AppendExceedChunkSize` reply while retrying the same
chunk on any other error, and on the first success returns
`start * MaxChunkSize + replyOffset`. -/
theorem clientAppend_spec (chunks dataLen : Nat) (pre rest : List AppendChunkResult)
    (off : Nat) (hpre : ∀ r ∈ pre, ∀ o, r ≠ AppendChunkResult.ok o) :
    (dataLen > MaxAppendSize →
      clientAppend chunks dataLen (pre ++ .ok off :: rest) = .error ()) ∧
    (dataLen ≤ MaxAppendSize →
      clientAppend chunks dataLen (pre ++ .ok off :: rest) =
        .ok (some ((chunks - 1 + countExceed pre) * MaxChunkSize + off))) := by
  constructor
  · intro h
    unfold clientAppend
    rw [if_pos h]
  · intro h
    unfold clientAppend
    rw [if_neg (Nat.not_lt.mpr h), appendLoop_success off pre rest (chunks - 1) hpre]
    rfl

/-- Witness for C4: a file of 2 chunks, one connection failure, one pad
signal, then success at offset 5: the append lands on chunk index 2. -/
theorem clientAppend_spec_witness :
    clientAppend 2 3 ([.fail, .exceed 60] ++ .ok 5 :: []) =
      .ok (some ((2 - 1 + countExceed [.fail, .exceed 60]) * MaxChunkSize + 5)) :=
  (clientAppend_spec 2 3 [.fail, .exceed 60] [] 5 (by simp)).2 (by decide)

/-- C1: after consuming the staged data, `RPCAppendChunk` on a quiescent
chunk elects `Pad` when `length + len(data) > MaxChunkSize` — setting the
chunk length to `MaxChunkSize`, applying a `Pad` at `MaxChunkSize - 1` and
replying `AppendExceedChunkSize` with the prior length as offset — and
otherwise elects `Append`, setting `length = length + len(data)`, applying
the record at the prior length and replying that prior length. -/
theorem rpcAppendChunk_pad_or_append (s : ChunkServerState) (id : DataBufferID)
    (data : List Nat) (ck : ChunkInfo)
    (hdl : bufGet s.dl id = some data)
    (hsize : data.length ≤ MaxAppendSize)
    (hck : alookup s.chunk id.handle = some ck)
    (hq : ck.mutations = []) (hveq : ck.version = ck.newestVersion) :
    (if ck.length + data.length > MaxChunkSize then
      (RPCAppendChunk diskOK s id).2 = .ok ⟨ck.length, .appendExceedChunkSize⟩ ∧
      alookup (RPCAppendChunk diskOK s id).1.chunk id.handle =
        some { length := MaxChunkSize, version := ck.version + 1,
               newestVersion := ck.version + 1, mutations := [],
               applied := ck.applied ++ [⟨.pad, ck.version + 1, [0], MaxChunkSize - 1⟩] }
    else
      (RPCAppendChunk diskOK s id).2 = .ok ⟨ck.length, .success⟩ ∧
      alookup (RPCAppendChunk diskOK s id).1.chunk id.handle =
        some { length := ck.length + data.length, version := ck.version + 1,
               newestVersion := ck.version + 1, mutations := [],
               applied := ck.applied ++ [⟨.append, ck.version + 1, data, ck.length⟩] }) := by
  have hdel : deleteDownloadedData s.dl id = .ok (data, bufDelete s.dl id) := by
    unfold deleteDownloadedData
    rw [hdl]
  unfold RPCAppendChunk
  rw [hdel]
  dsimp only
  rw [if_neg (Nat.not_lt.mpr hsize), hck]
  dsimp only
  rw [appendChunkLocal_quiescent diskOK data ck hq hveq rfl]
  by_cases hc : ck.length + data.length > MaxChunkSize
  · rw [if_pos hc, if_pos hc]
    refine ⟨rfl, ?_⟩
    dsimp only
    rw [alookup_aset, if_pos rfl]
  · rw [if_neg hc, if_neg hc]
    refine ⟨rfl, ?_⟩
    dsimp only
    rw [alookup_aset, if_pos rfl]

/-- Witness for C1 on a fresh chunk: appending 3 bytes to an empty chunk
takes the `Append` branch, lands at offset 0 and grows the length to 3. -/
theorem rpcAppendChunk_pad_or_append_witness :
    (if (0 : Nat) + 3 > MaxChunkSize then
      (RPCAppendChunk diskOK
        { dl := [(⟨1, 0⟩, [7, 8, 9])], chunk := [(1, freshChunk)], files := [1] } ⟨1, 0⟩).2 =
          .ok ⟨0, .appendExceedChunkSize⟩ ∧
      alookup (RPCAppendChunk diskOK
        { dl := [(⟨1, 0⟩, [7, 8, 9])], chunk := [(1, freshChunk)], files := [1] } ⟨1, 0⟩).1.chunk 1 =
        some { length := MaxChunkSize, version := 1, newestVersion := 1, mutations := [],
               applied := [] ++ [⟨.pad, 1, [0], MaxChunkSize - 1⟩] }
    else
      (RPCAppendChunk diskOK
        { dl := [(⟨1, 0⟩, [7, 8, 9])], chunk := [(1, freshChunk)], files := [1] } ⟨1, 0⟩).2 =
          .ok ⟨0, .success⟩ ∧
      alookup (RPCAppendChunk diskOK
        { dl := [(⟨1, 0⟩, [7, 8, 9])], chunk := [(1, freshChunk)], files := [1] } ⟨1, 0⟩).1.chunk 1 =
        some { length := 0 + 3, version := 1, newestVersion := 1, mutations := [],
               applied := [] ++ [⟨.append, 1, [7, 8, 9], 0⟩] }) :=
  rpcAppendChunk_pad_or_append
    { dl := [(⟨1, 0⟩, [7, 8, 9])], chunk := [(1, freshChunk)], files := [1] }
    ⟨1, 0⟩ [7, 8, 9] freshChunk (by decide) (by decide) (by decide) rfl rfl

/-- C6: a single-chunk write with `offset + len(data) = MaxChunkSize` passes
both the client-side check of `Client.WriteChunk` and the primary's check in
`RPCWriteChunk` (which then succeeds), while `offset + len(data) =
MaxChunkSize + 1` is rejected by both. -/
theorem writeChunk_size_boundary (s : ChunkServerState) (id : DataBufferID)
    (data : List Nat) (offset : Nat) (ck : ChunkInfo)
    (hdl : bufGet s.dl id = some data)
    (hck : alookup s.chunk id.handle = some ck)
    (hq : ck.mutations = []) (hveq : ck.version = ck.newestVersion) :
    (offset + data.length = MaxChunkSize →
      clientWriteChunkRejects offset data.length = false ∧
      (RPCWriteChunk diskOK s id offset).2 = none) ∧
    (offset + data.length = MaxChunkSize + 1 →
      clientWriteChunkRejects offset data.length = true ∧
      (RPCWriteChunk diskOK s id offset).2 = some .writeTooLarge) := by
  have hdel : deleteDownloadedData s.dl id = .ok (data, bufDelete s.dl id) := by
    unfold deleteDownloadedData
    rw [hdl]
  constructor
  · intro hb
    constructor
    · simp only [clientWriteChunkRejects, decide_eq_false_iff_not]
      omega
    · unfold RPCWriteChunk
      rw [hdel]
      dsimp only
      rw [if_neg (by omega : ¬ offset + data.length > MaxChunkSize), hck]
      dsimp only
      rw [writeChunkLocal_quiescent diskOK data offset ck hq hveq rfl]
  · intro hb
    constructor
    · simp only [clientWriteChunkRejects, decide_eq_true_eq]
      omega
    · unfold RPCWriteChunk
      rw [hdel]
      dsimp only
      rw [if_pos (by omega : offset + data.length > MaxChunkSize)]

/-- Witness for C6: a 2-byte write at `MaxChunkSize - 2` passes both checks
and succeeds; the same bytes at `MaxChunkSize - 1` are rejected by both. -/
theorem writeChunk_size_boundary_witness :
    (clientWriteChunkRejects (MaxChunkSize - 2) 2 = false ∧
      (RPCWriteChunk diskOK
        { dl := [(⟨1, 0⟩, [7, 8])], chunk := [(1, freshChunk)], files := [1] }
        ⟨1, 0⟩ (MaxChunkSize - 2)).2 = none) ∧
    (clientWriteChunkRejects (MaxChunkSize - 1) 2 = true ∧
      (RPCWriteChunk diskOK
        { dl := [(⟨1, 0⟩, [7, 8])], chunk := [(1, freshChunk)], files := [1] }
        ⟨1, 0⟩ (MaxChunkSize - 1)).2 = some .writeTooLarge) :=
  ⟨(writeChunk_size_boundary
      { dl := [(⟨1, 0⟩, [7, 8])], chunk := [(1, freshChunk)], files := [1] }
      ⟨1, 0⟩ [7, 8] (MaxChunkSize - 2) freshChunk
      (by decide) (by decide) rfl rfl).1 (by decide),
   (writeChunk_size_boundary
      { dl := [(⟨1, 0⟩, [7, 8])], chunk := [(1, freshChunk)], files := [1] }
      ⟨1, 0⟩ [7, 8] (MaxChunkSize - 1) freshChunk
      (by decide) (by decide) rfl rfl).2 (by decide)⟩

/-- C2 (counterexample): `c2State` is reachable — chunk 1 is created, bytes
are staged, and `ApplyMutation` delivers version 2 before version 1 has
arrived — yet its chunk has a non-empty mutation buffer while
`version = newestVersion = 0`, refuting the claimed invariant. -/
theorem c2_invariant_counterexample : Reach c2State ∧ ¬ chunkCounterInv c2State := by
  constructor
  · exact Reach.applyMutation
      (Reach.forwardData (Reach.createChunk Reach.init 1) ⟨1, 0⟩ [42]) .append 2 ⟨1, 0⟩ 0
  · intro h
    have hl : alookup c2State.chunk 1 =
        some { length := 0, version := 0, newestVersion := 0,
               mutations := [(2, ⟨.append, 2, [42], 0⟩)], applied := [] } := by decide
    exact absurd ((h 1 _ hl).2.mpr rfl) (by decide)

/-- C2 (amended): provided every `ApplyMutation` is delivered in version
order — its version is the successor of the target chunk's `newestVersion`
— every reachable state satisfies `version ≤ newestVersion` on every chunk,
with the mutation buffer empty iff `version = newestVersion`.  Out-of-order
delivery (possible under concurrent mutations) violates both parts. -/
theorem c2_invariant_of_ordered_delivery (s : ChunkServerState) (hs : ReachOrd s) :
    chunkCounterInv s := by
  intro handle ck hl
  obtain ⟨h1, h2⟩ := reachOrd_quiescent hs handle ck hl
  exact ⟨le_of_eq h2, ⟨fun _ => h2, fun _ => h1⟩⟩

/-- Witness for the amended C2 on a state reached by a create followed by a
staged and committed append. -/
theorem c2_invariant_of_ordered_delivery_witness :
    chunkCounterInv (RPCAppendChunk diskOK
      { (RPCCreateChunk initState 1).1 with
          dl := (RPCForwardData (RPCCreateChunk initState 1).1.dl ⟨1, 0⟩ [42]).1 }
      ⟨1, 0⟩).1 :=
  c2_invariant_of_ordered_delivery _
    (ReachOrd.appendChunk
      (ReachOrd.forwardData (ReachOrd.createChunk ReachOrd.init 1) ⟨1, 0⟩ [42]) ⟨1, 0⟩)

theorem resync_applied (p : ChunkInfo × Bool) : (resync p).1.applied = p.1.applied := by
  rcases p with ⟨ck, b⟩
  cases b
  · unfold resync
    dsimp only
    by_cases hm : ck.mutations.length = 0
    · rw [if_pos hm]
    · rw [if_neg hm]
  · rfl

theorem resync_version (p : ChunkInfo × Bool) : (resync p).1.version = p.1.version := by
  rcases p with ⟨ck, b⟩
  cases b
  · unfold resync
    dsimp only
    by_cases hm : ck.mutations.length = 0
    · rw [if_pos hm]
    · rw [if_neg hm]
  · rfl

theorem resync_newestVersion (p : ChunkInfo × Bool) (h2 : (resync p).2 = false)
    (hm : (resync p).1.mutations = []) :
    (resync p).1.newestVersion = (resync p).1.version := by
  rcases p with ⟨ck, b⟩
  cases b
  · unfold resync at hm ⊢
    dsimp only at hm ⊢
    by_cases hq : ck.mutations.length = 0
    · rw [if_pos hq]
    · rw [if_neg hq] at hm
      exact absurd (by rw [hm] : ck.mutations.length = List.length []) hq
  · cases h2

/-- C3: the drain routine applies buffered mutations to disk strictly in
ascending version order — the applications it performs carry the
consecutive versions `version + 1, version + 2, …`, the chunk's version
advances by one per application, and when the buffer has emptied without a
disk error, `newestVersion` is set equal to `version`. -/
theorem doMutation_applies_in_version_order (disk : Nat → Bool) (ck : ChunkInfo)
    (hwf : ∀ p ∈ ck.mutations, (p.2).version = p.1) :
    ∃ evs : List AppEvent,
      (doMutation disk ck).1.applied = ck.applied ++ evs ∧
      evs.map AppEvent.version = List.range' (ck.version + 1) evs.length ∧
      (doMutation disk ck).1.version = ck.version + evs.length ∧
      ((doMutation disk ck).2 = false → (doMutation disk ck).1.mutations = [] →
        (doMutation disk ck).1.newestVersion = (doMutation disk ck).1.version) := by
  obtain ⟨evs, h1, h2, h3, h4⟩ := doMutationLoop_applied disk ck.mutations.length ck hwf
  unfold doMutation
  exact ⟨evs, by rw [resync_applied, h1], h2, by rw [resync_version, h3],
    fun ha hb => resync_newestVersion _ ha hb⟩

/-- Witness for C3: a buffer holding versions 1 and 2 over a fresh chunk. -/
theorem doMutation_applies_in_version_order_witness :
    ∃ evs : List AppEvent,
      (doMutation diskOK
        { freshChunk with
            mutations := [(1, ⟨.append, 1, [5], 0⟩), (2, ⟨.append, 2, [6], 1⟩)] }).1.applied =
        ({ freshChunk with
            mutations := [(1, ⟨.append, 1, [5], 0⟩), (2, ⟨.append, 2, [6], 1⟩)] } :
          ChunkInfo).applied ++ evs ∧
      evs.map AppEvent.version = List.range' (0 + 1) evs.length ∧
      (doMutation diskOK
        { freshChunk with
            mutations := [(1, ⟨.append, 1, [5], 0⟩), (2, ⟨.append, 2, [6], 1⟩)] }).1.version =
        0 + evs.length ∧
      ((doMutation diskOK
        { freshChunk with
            mutations := [(1, ⟨.append, 1, [5], 0⟩), (2, ⟨.append, 2, [6], 1⟩)] }).2 = false →
       (doMutation diskOK
        { freshChunk with
            mutations := [(1, ⟨.append, 1, [5], 0⟩), (2, ⟨.append, 2, [6], 1⟩)] }).1.mutations = [] →
       (doMutation diskOK
        { freshChunk with
            mutations := [(1, ⟨.append, 1, [5], 0⟩), (2, ⟨.append, 2, [6], 1⟩)] }).1.newestVersion =
       (doMutation diskOK
        { freshChunk with
            mutations := [(1, ⟨.append, 1, [5], 0⟩), (2, ⟨.append, 2, [6], 1⟩)] }).1.version) :=
  doMutation_applies_in_version_order diskOK
    { freshChunk with mutations := [(1, ⟨.append, 1, [5], 0⟩), (2, ⟨.append, 2, [6], 1⟩)] }
    (by decide)

/-- C9: when the disk write of the mutation at `version + 1` fails, the
drain routine reports the error only after the mutation has been removed
from the buffer and the chunk's in-memory `version` (and, when the write
extends the chunk, its `length`) has been advanced; the failed mutation is
no longer buffered afterwards. -/
theorem doMutation_error_drops_mutation (disk : Nat → Bool) (ck : ChunkInfo) (m : Mutation)
    (hm : alookup ck.mutations (ck.version + 1) = some m)
    (hv : m.version = ck.version + 1)
    (hdisk : disk (ck.version + 1) = false) :
    (doMutation disk ck).2 = true ∧
    (doMutation disk ck).1.mutations = aerase ck.mutations (ck.version + 1) ∧
    alookup (doMutation disk ck).1.mutations (ck.version + 1) = none ∧
    (doMutation disk ck).1.version = ck.version + 1 ∧
    (doMutation disk ck).1.newestVersion = ck.newestVersion ∧
    (doMutation disk ck).1.length =
      (if applyOffset m.mtype m.offset + (applyData m.mtype m.data).length > ck.length
       then applyOffset m.mtype m.offset + (applyData m.mtype m.data).length
       else ck.length) := by
  have hne : ck.mutations ≠ [] := by
    intro hnil
    rw [hnil] at hm
    cases hm
  obtain ⟨n, hn⟩ : ∃ n, ck.mutations.length = n + 1 :=
    Nat.exists_eq_succ_of_ne_zero (fun h0 => hne (List.length_eq_zero.mp h0))
  have hstep : doMutation disk ck =
      ({ length := if applyOffset m.mtype m.offset + (applyData m.mtype m.data).length > ck.length
            then applyOffset m.mtype m.offset + (applyData m.mtype m.data).length
            else ck.length,
         version := ck.version + 1,
         newestVersion := ck.newestVersion,
         mutations := aerase ck.mutations (ck.version + 1),
         applied := ck.applied ++
           [⟨m.mtype, ck.version + 1, applyData m.mtype m.data, applyOffset m.mtype m.offset⟩] },
       true) := by
    unfold doMutation
    rw [hn]
    simp [doMutationLoop, hm, hv, hdisk, writeChunk, resync]
  rw [hstep]
  exact ⟨rfl, rfl, alookup_aerase_self _ _, rfl, rfl, rfl⟩

/-- Witness for C9: the disk write for version 1 fails on a buffer holding
exactly that mutation; the buffer is emptied and the version advanced
anyway. -/
theorem doMutation_error_drops_mutation_witness :
    ((doMutation (fun _ => false)
        { freshChunk with mutations := [(1, ⟨.append, 1, [5], 0⟩)] }).2 = true ∧
      (doMutation (fun _ => false)
        { freshChunk with mutations := [(1, ⟨.append, 1, [5], 0⟩)] }).1.mutations =
        aerase [(1, ⟨.append, 1, [5], 0⟩)] 1 ∧
      alookup (doMutation (fun _ => false)
        { freshChunk with mutations := [(1, ⟨.append, 1, [5], 0⟩)] }).1.mutations 1 = none ∧
      (doMutation (fun _ => false)
        { freshChunk with mutations := [(1, ⟨.append, 1, [5], 0⟩)] }).1.version = 1 ∧
      (doMutation (fun _ => false)
        { freshChunk with mutations := [(1, ⟨.append, 1, [5], 0⟩)] }).1.newestVersion = 0 ∧
      (doMutation (fun _ => false)
        { freshChunk with mutations := [(1, ⟨.append, 1, [5], 0⟩)] }).1.length =
        (if applyOffset .append 0 + (applyData .append [5]).length > 0
         then applyOffset .append 0 + (applyData .append [5]).length else 0)) :=
  doMutation_error_drops_mutation (fun _ => false)
    { freshChunk with mutations := [(1, ⟨.append, 1, [5], 0⟩)] }
    ⟨.append, 1, [5], 0⟩ (by decide) rfl rfl

/-- C7: `ChooseServers(n)` (over the registered server map's distinct key
list, with `rand.Perm` as an explicit permutation parameter) returns `n`
pairwise-distinct addresses drawn from the registered set, and fails
exactly when `n` exceeds the number of registered servers. -/
theorem chooseServers_spec (servers : List Nat) (num : Nat) (perm : List Nat)
    (hnd : servers.Nodup) (hperm : perm.Perm (List.range servers.length)) :
    (num ≤ servers.length →
      ∃ ret, ChooseServers servers num perm = some ret ∧
        ret.length = num ∧ ret.Nodup ∧ ∀ a ∈ ret, a ∈ servers) ∧
    (servers.length < num → ChooseServers servers num perm = none) := by
  constructor
  · intro hle
    have hlenp : perm.length = servers.length := by
      rw [hperm.length_eq, List.length_range]
    have hpnd : perm.Nodup := hperm.nodup_iff.mpr (List.nodup_range _)
    have hmem : ∀ i ∈ perm, i < servers.length := by
      intro i hi
      exact List.mem_range.mp (hperm.mem_iff.mp hi)
    have hsub : ∀ i ∈ perm.take num, i < servers.length := by
      intro i hi
      exact hmem i ((List.take_sublist num perm).subset hi)
    have hchoose : ChooseServers servers num perm =
        some ((perm.take num).map (fun i => servers.getD i 0)) := by
      unfold ChooseServers Sample
      rw [if_neg (Nat.not_lt.mpr hle), if_neg (Nat.not_lt.mpr hle)]
    refine ⟨(perm.take num).map (fun i => servers.getD i 0), hchoose, ?_, ?_, ?_⟩
    · rw [List.length_map, List.length_take, hlenp]
      exact Nat.min_eq_left hle
    · refine List.Nodup.map_on ?_ (List.Nodup.sublist (List.take_sublist num perm) hpnd)
      intro x hx y hy hxy
      have hxl := hsub x hx
      have hyl := hsub y hy
      rw [List.getD_eq_getElem servers 0 hxl, List.getD_eq_getElem servers 0 hyl] at hxy
      exact (List.Nodup.getElem_inj_iff hnd).mp hxy
    · intro a ha
      obtain ⟨i, hi, hia⟩ := List.mem_map.mp ha
      rw [List.getD_eq_getElem servers 0 (hsub i hi)] at hia
      exact hia ▸ List.getElem_mem _
  · intro hgt
    unfold ChooseServers
    rw [if_pos hgt]

/-- Witness for C7: two registered servers, permutation `[1, 0]`, asking
for one and for three. -/
theorem chooseServers_spec_witness :
    (∃ ret, ChooseServers [10, 20] 1 [1, 0] = some ret ∧
      ret.length = 1 ∧ ret.Nodup ∧ ∀ a ∈ ret, a ∈ [10, 20]) ∧
    ChooseServers [10, 20] 3 [1, 0] = none :=
  ⟨(chooseServers_spec [10, 20] 1 [1, 0] (by decide) (by decide)).1 (by decide),
   (chooseServers_spec [10, 20] 3 [1, 0] (by decide) (by decide)).2 (by decide)⟩

end GoGFS
